import Mathlib

/-!
Verification of the audio-capture engine of the meeting-transcriber
repository (Go service `AudioService`): the recording lifecycle state
machine, pause-aware elapsed-time accounting, the driver callback, the
linear-interpolation resampler, the PCM (WAV) container writer, and the
spectrum analyzer's band/bin index computation.

Timestamps and durations are modelled as integers (Go `time.Time` /
`time.Duration` are integer nanosecond counts); the device sample rate
in the lifecycle and resampler models is a rational (exact arithmetic
in place of the source's float64), and the spectrum analyzer, which
uses transcendental functions, is modelled over the reals.
-/

namespace MeetingTranscriber

/-- Lifecycle states of the recorder (`recordingState` in the source:
`stateIdle`, `stateRecording`, `statePaused`). -/
inductive RecState where
  | idle
  | recording
  | paused
  deriving DecidableEq, Repr

/-- The mutable fields of `AudioService` that the lifecycle, timing and
callback logic touch.  `nativeSR` is the device rate discovered at
Start; `samples` are the accumulated native-rate samples; `specBuf` is
the scratch buffer holding the most recent callback block. -/
structure Session where
  state : RecState
  nativeSR : ℚ
  samples : List ℤ
  startTime : ℤ
  elapsed : ℤ
  pauseStart : ℤ
  totalPaused : ℤ
  specBuf : List ℤ
  deriving DecidableEq, Repr

/-- Errors surfaced by the engine: a guard violation reporting the
current state (`cannot start recording: current state is %s` and
friends), a device-discovery failure, a stream open/start/stop failure,
and a file-I/O failure in `writeWAV`. -/
inductive AudioErr where
  | invalidState (st : RecState)
  | deviceError
  | streamError
  | ioError
  deriving DecidableEq, Repr

/-- Environment of one `StartRecording` call: the default input device
(its native rate) if discovery succeeds, and whether the stream open
and stream start succeed. -/
structure StartEnv where
  device : Option ℚ
  openOk : Bool
  startOk : Bool
  deriving DecidableEq, Repr

/-- Environment of one `StopRecording` call: whether `stream.Stop()`
succeeds and whether `writeWAV` succeeds. -/
structure StopEnv where
  stopOk : Bool
  writeOk : Bool
  deriving DecidableEq, Repr

/-- `StartRecording` (source lines 71-118): guard on Idle, device
discovery (setting `nativeSR`), reset of `samples`, `totalPaused` and
`specBuf`, then stream open and start; only on full success does the
state move to Recording with `startTime = now`. -/
def startRecording (s : Session) (now : ℤ) (env : StartEnv) :
    Session × Option AudioErr :=
  if s.state ≠ RecState.idle then
    (s, some (AudioErr.invalidState s.state))
  else
    match env.device with
    | none => (s, some AudioErr.deviceError)
    | some rate =>
        let s1 : Session :=
          { s with nativeSR := rate, samples := [], totalPaused := 0,
                   specBuf := [] }
        if env.openOk = false then
          (s1, some AudioErr.streamError)
        else if env.startOk = false then
          (s1, some AudioErr.streamError)
        else
          ({ s1 with state := RecState.recording, startTime := now }, none)

/-- `PauseRecording` (source lines 120-131). -/
def pauseRecording (s : Session) (now : ℤ) : Session × Option AudioErr :=
  if s.state ≠ RecState.recording then
    (s, some (AudioErr.invalidState s.state))
  else
    ({ s with state := RecState.paused, pauseStart := now }, none)

/-- `ResumeRecording` (source lines 133-144): folds the finished pause
into `totalPaused`. -/
def resumeRecording (s : Session) (now : ℤ) : Session × Option AudioErr :=
  if s.state ≠ RecState.paused then
    (s, some (AudioErr.invalidState s.state))
  else
    ({ s with totalPaused := s.totalPaused + (now - s.pauseStart),
              state := RecState.recording }, none)

/-- `StopRecording` (source lines 146-174): guard on non-Idle, fold of
an in-progress pause, freezing of `elapsed`, then stream stop/close
(state goes Idle even if the stop fails) and `writeWAV`. -/
def stopRecording (s : Session) (now : ℤ) (env : StopEnv) :
    Session × Option AudioErr :=
  if s.state = RecState.idle then
    (s, some (AudioErr.invalidState s.state))
  else
    let tp : ℤ :=
      if s.state = RecState.paused then s.totalPaused + (now - s.pauseStart)
      else s.totalPaused
    let s1 : Session :=
      { s with totalPaused := tp, elapsed := (now - s.startTime) - tp,
               state := RecState.idle }
    if env.stopOk = false then
      (s1, some AudioErr.streamError)
    else if env.writeOk = false then
      (s1, some AudioErr.ioError)
    else
      (s1, none)

/-- `GetElapsedTime` (source lines 176-188), as a duration (the source
converts the same duration to float seconds at the very end). -/
def getElapsedTime (s : Session) (now : ℤ) : ℤ :=
  match s.state with
  | RecState.recording => (now - s.startTime) - s.totalPaused
  | RecState.paused =>
      (now - s.startTime) - s.totalPaused - (now - s.pauseStart)
  | RecState.idle => s.elapsed

/-- The stream callback registered in `StartRecording` (source lines
94-103): always overwrite the scratch buffer with the incoming block;
append to `samples` only while Recording. -/
def streamCallback (s : Session) (block : List ℤ) : Session :=
  let s1 : Session := { s with specBuf := block }
  if s1.state = RecState.recording then
    { s1 with samples := s1.samples ++ block }
  else s1

/-- One lifecycle call together with its clock reading and environment. -/
inductive CallSpec where
  | start (now : ℤ) (env : StartEnv)
  | pause (now : ℤ)
  | resume (now : ℤ)
  | stop (now : ℤ) (env : StopEnv)
  deriving DecidableEq, Repr

/-- Dispatch one call to the corresponding operation. -/
def exec (s : Session) (c : CallSpec) : Session × Option AudioErr :=
  match c with
  | CallSpec.start now env => startRecording s now env
  | CallSpec.pause now => pauseRecording s now
  | CallSpec.resume now => resumeRecording s now
  | CallSpec.stop now env => stopRecording s now env

/-- Run a sequence of calls, each on the session the previous one left
behind (errors are reported to the caller; the session carries on). -/
def runCalls (cs : List CallSpec) (s : Session) : Session :=
  cs.foldl (fun t c => (exec t c).1) s

/-- Precondition of each call on the current state, per the transition
table of spec section 4.1. -/
def pre (c : CallSpec) (st : RecState) : Prop :=
  match c with
  | CallSpec.start _ _ => st = RecState.idle
  | CallSpec.pause _ => st = RecState.recording
  | CallSpec.resume _ => st = RecState.paused
  | CallSpec.stop _ _ => st ≠ RecState.idle

instance (c : CallSpec) (st : RecState) : Decidable (pre c st) := by
  cases c <;> simp only [pre] <;> infer_instance

/-- Modelled from the spec: the state-machine table of section 4.1,
with the section 4.2 proviso that a Start whose stream open/start
fails leaves the engine Idle.  A call whose guard fails leaves the
state unchanged. -/
def specTableStep (c : CallSpec) (st : RecState) : RecState :=
  match c, st with
  | CallSpec.start _ env, RecState.idle =>
      if env.device.isSome ∧ env.openOk ∧ env.startOk then RecState.recording
      else RecState.idle
  | CallSpec.pause _, RecState.recording => RecState.paused
  | CallSpec.resume _, RecState.paused => RecState.recording
  | CallSpec.stop _ _, RecState.recording => RecState.idle
  | CallSpec.stop _ _, RecState.paused => RecState.idle
  | _, st => st

/-- Modelled from the spec: iterate the section 4.1 table over a call
sequence. -/
def specTableRun (cs : List CallSpec) (st : RecState) : RecState :=
  cs.foldl (fun t c => specTableStep c t) st

theorem exec_state_eq_table (s : Session) (c : CallSpec) :
    (exec s c).1.state = specTableStep c s.state := by
  cases c with
  | start now env =>
      rcases env with ⟨dev, openOk, startOk⟩
      cases dev <;> cases openOk <;> cases startOk <;>
        rcases s with ⟨st, _, _, _, _, _, _, _⟩ <;> cases st <;>
        simp [exec, startRecording, specTableStep]
  | pause now =>
      rcases s with ⟨st, _, _, _, _, _, _, _⟩
      cases st <;> simp [exec, pauseRecording, specTableStep]
  | resume now =>
      rcases s with ⟨st, _, _, _, _, _, _, _⟩
      cases st <;> simp [exec, resumeRecording, specTableStep]
  | stop now env =>
      rcases env with ⟨stopOk, writeOk⟩
      cases stopOk <;> cases writeOk <;>
        rcases s with ⟨st, _, _, _, _, _, _, _⟩ <;> cases st <;>
        simp [exec, stopRecording, specTableStep]

theorem exec_invalid_state (s : Session) (c : CallSpec)
    (h : ¬ pre c s.state) :
    exec s c = (s, some (AudioErr.invalidState s.state)) := by
  cases c with
  | start now env =>
      simp only [pre] at h
      simp [exec, startRecording, h]
  | pause now =>
      simp only [pre] at h
      simp [exec, pauseRecording, h]
  | resume now =>
      simp only [pre] at h
      simp [exec, resumeRecording, h]
  | stop now env =>
      simp only [pre, not_not] at h
      simp [exec, stopRecording, h]

/-- **C1.** For every sequence of calls the lifecycle state evolves
exactly per the section 4.1 transition table, and any call whose
precondition on the current state is violated returns an InvalidState
error (reporting the current state) and leaves the session unchanged. -/
theorem lifecycle_matches_table :
    (∀ (cs : List CallSpec) (s : Session),
        (runCalls cs s).state = specTableRun cs s.state)
    ∧ (∀ (s : Session) (c : CallSpec), ¬ pre c s.state →
        exec s c = (s, some (AudioErr.invalidState s.state))) := by
  constructor
  · intro cs
    induction cs with
    | nil => intro s; rfl
    | cons c cs ih =>
        intro s
        have h1 : runCalls (c :: cs) s = runCalls cs (exec s c).1 := rfl
        have h2 : specTableRun (c :: cs) s.state
            = specTableRun cs (specTableStep c s.state) := rfl
        rw [h1, h2, ih, exec_state_eq_table]
  · exact exec_invalid_state

/-- Concrete instantiation of `lifecycle_matches_table`: pausing while
Idle fails with InvalidState and leaves the session untouched. -/
def demoIdle : Session :=
  { state := RecState.idle, nativeSR := 48000, samples := [], startTime := 0,
    elapsed := 0, pauseStart := 0, totalPaused := 0, specBuf := [] }

theorem lifecycle_matches_table_witness :
    exec demoIdle (CallSpec.pause 5)
      = (demoIdle, some (AudioErr.invalidState RecState.idle)) :=
  lifecycle_matches_table.2 demoIdle (CallSpec.pause 5) (by decide)

/-- **C2.** After a successful Stop at time `t`, the frozen `elapsed`
equals `(t - startTime) - totalPaused`, where an in-progress pause
(`t - pauseStart`) has first been folded into `totalPaused` if the
session was Paused at the moment of Stop. -/
theorem stop_elapsed (s : Session) (t : ℤ) (env : StopEnv)
    (h : s.state ≠ RecState.idle)
    (hstop : env.stopOk = true) (hwrite : env.writeOk = true) :
    ((stopRecording s t env).1).elapsed
      = (t - s.startTime)
        - (s.totalPaused
            + (if s.state = RecState.paused then t - s.pauseStart else 0)) := by
  rcases env with ⟨stopOk, writeOk⟩
  simp only at hstop hwrite
  subst hstop hwrite
  simp only [stopRecording, if_neg h]
  split_ifs with hp <;> simp

/-- Concrete paused session used to instantiate the timing theorems. -/
def demoPaused : Session :=
  { state := RecState.paused, nativeSR := 48000, samples := [3, 4],
    startTime := 10, elapsed := 0, pauseStart := 50, totalPaused := 7,
    specBuf := [3, 4] }

theorem stop_elapsed_witness :
    demoPaused.state ≠ RecState.idle
    ∧ ((stopRecording demoPaused 100 ⟨true, true⟩).1).elapsed
        = (100 - demoPaused.startTime)
          - (demoPaused.totalPaused
              + (if demoPaused.state = RecState.paused
                  then 100 - demoPaused.pauseStart else 0)) :=
  ⟨by decide, stop_elapsed demoPaused 100 ⟨true, true⟩ (by decide) rfl rfl⟩

/-- **C3.** While Paused, `GetElapsedTime` returns
`pauseStart - startTime - totalPaused`, independent of the current
time, so repeated reads during one pause all return the same value. -/
theorem paused_elapsed_frozen (s : Session)
    (h : s.state = RecState.paused) (t t' : ℤ) :
    getElapsedTime s t = s.pauseStart - s.startTime - s.totalPaused
    ∧ getElapsedTime s t = getElapsedTime s t' := by
  simp only [getElapsedTime, h]
  constructor <;> ring

theorem paused_elapsed_frozen_witness :
    demoPaused.state = RecState.paused
    ∧ getElapsedTime demoPaused 60
        = demoPaused.pauseStart - demoPaused.startTime - demoPaused.totalPaused
    ∧ getElapsedTime demoPaused 60 = getElapsedTime demoPaused 1000000 :=
  ⟨rfl, (paused_elapsed_frozen demoPaused rfl 60 1000000).1,
    (paused_elapsed_frozen demoPaused rfl 60 1000000).2⟩

/-- **C8.** After any callback invocation with block `B` (empty blocks
included), the scratch buffer equals exactly `B`, and `samples` is
extended by exactly `B` when the state is Recording and is unchanged
in Paused or Idle. -/
theorem callback_contract (s : Session) (block : List ℤ) :
    (streamCallback s block).specBuf = block
    ∧ (streamCallback s block).samples
        = (if s.state = RecState.recording
            then s.samples ++ block else s.samples) := by
  simp only [streamCallback]
  split <;> simp_all

/-- **C10.** If Start fails after device discovery (stream open or
stream start failure), the error is returned and the state stays Idle,
but the previous session's data is already gone: `samples`,
`totalPaused` and the scratch buffer are cleared and `nativeSR` holds
the newly discovered device rate. -/
theorem start_failure_loses_previous_session (s : Session) (t : ℤ)
    (rate : ℚ) (openOk startOk : Bool)
    (hidle : s.state = RecState.idle)
    (hfail : openOk = false ∨ startOk = false) :
    (startRecording s t ⟨some rate, openOk, startOk⟩).2
        = some AudioErr.streamError
    ∧ (startRecording s t ⟨some rate, openOk, startOk⟩).1.state
        = RecState.idle
    ∧ (startRecording s t ⟨some rate, openOk, startOk⟩).1.samples = []
    ∧ (startRecording s t ⟨some rate, openOk, startOk⟩).1.totalPaused = 0
    ∧ (startRecording s t ⟨some rate, openOk, startOk⟩).1.specBuf = []
    ∧ (startRecording s t ⟨some rate, openOk, startOk⟩).1.nativeSR = rate := by
  cases openOk <;> cases startOk <;>
    simp_all [startRecording, hidle]

/-- Idle session still holding the previous session's data, used to
instantiate `start_failure_loses_previous_session`. -/
def demoDirty : Session :=
  { state := RecState.idle, nativeSR := 44100, samples := [7, 8, 9],
    startTime := 10, elapsed := 90, pauseStart := 20, totalPaused := 3,
    specBuf := [9] }

theorem start_failure_loses_previous_session_witness :
    demoDirty.state = RecState.idle
    ∧ (startRecording demoDirty 200 ⟨some 48000, true, false⟩).2
        = some AudioErr.streamError
    ∧ (startRecording demoDirty 200 ⟨some 48000, true, false⟩).1.samples = []
    ∧ (startRecording demoDirty 200 ⟨some 48000, true, false⟩).1.nativeSR
        = 48000 :=
  ⟨rfl,
    (start_failure_loses_previous_session demoDirty 200 48000 true false rfl
      (Or.inr rfl)).1,
    (start_failure_loses_previous_session demoDirty 200 48000 true false rfl
      (Or.inr rfl)).2.2.1,
    (start_failure_loses_previous_session demoDirty 200 48000 true false rfl
      (Or.inr rfl)).2.2.2.2.2⟩

/-- Truncation toward zero: the semantics of Go's float-to-integer
conversion (`int(x)`, `int16(x)`). -/
def ratTrunc (q : ℚ) : ℤ :=
  if 0 ≤ q then ⌊q⌋ else ⌈q⌉

/-- The loop body of `downsample` (source lines 287-297): compute
`srcPos = i · ratio`, its integer part `idx` (Go `int(srcPos)`,
truncation) and fraction `frac`, then interpolate, falling back to the
last sample or zero near the end of the input; the interpolated value
is converted back to an integer sample (`int16(...)`). -/
def downBody (nativeSR : ℚ) (xs : List ℤ) (i : ℕ) : ℤ :=
  let srcPos : ℚ := (i : ℚ) * (nativeSR / 16000)
  let idx : ℤ := ratTrunc srcPos
  let frac : ℚ := srcPos - (idx : ℚ)
  if idx + 1 < (xs.length : ℤ) then
    ratTrunc ((xs.getD idx.toNat 0 : ℚ) * (1 - frac)
      + (xs.getD (idx.toNat + 1) 0 : ℚ) * frac)
  else if idx < (xs.length : ℤ) then xs.getD idx.toNat 0
  else 0

/-- `downsample` (source lines 278-300): identity at the target rate,
otherwise `outLen = int(inputLength / ratio)` samples produced by
`downBody`. -/
def downsample (nativeSR : ℚ) (xs : List ℤ) : List ℤ :=
  if nativeSR = 16000 then xs
  else
    (List.range ((ratTrunc ((xs.length : ℚ) / (nativeSR / 16000))).toNat)).map
      (downBody nativeSR xs)

/-- The claim's per-index resampling formula (`srcPos = i · ratio`,
`idx = ⌊srcPos⌋`, `frac = srcPos − idx`, interpolate, with boundary
fallbacks), amended with the integer truncation the source applies to
the interpolated value. -/
def resampleAt (nativeSR : ℚ) (xs : List ℤ) (i : ℕ) : ℤ :=
  let srcPos : ℚ := (i : ℚ) * (nativeSR / 16000)
  let idx : ℤ := ⌊srcPos⌋
  let frac : ℚ := srcPos - (idx : ℚ)
  if idx + 1 < (xs.length : ℤ) then
    ratTrunc ((xs.getD idx.toNat 0 : ℚ) * (1 - frac)
      + (xs.getD (idx.toNat + 1) 0 : ℚ) * frac)
  else if idx < (xs.length : ℤ) then xs.getD idx.toNat 0
  else 0

theorem ratTrunc_of_nonneg {q : ℚ} (h : 0 ≤ q) : ratTrunc q = ⌊q⌋ :=
  if_pos h

theorem ratTrunc_intCast (z : ℤ) : ratTrunc (z : ℚ) = z := by
  unfold ratTrunc
  split
  · exact Int.floor_intCast z
  · exact Int.ceil_intCast z

theorem floor_srcPos_lt {rq : ℚ} (hrq : 0 < rq) {m i : ℕ}
    (hi : i < (ratTrunc ((m : ℚ) / rq)).toNat) :
    ⌊(i : ℚ) * rq⌋ < (m : ℤ) := by
  have h0 : (0 : ℚ) ≤ (m : ℚ) / rq := by positivity
  rw [ratTrunc_of_nonneg h0] at hi
  have h1 : ((i : ℤ) : ℚ) + 1 ≤ (m : ℚ) / rq := by
    have h2 : (i : ℤ) < ⌊(m : ℚ) / rq⌋ := Int.lt_toNat.mp hi
    have h3 : (i : ℤ) + 1 ≤ ⌊(m : ℚ) / rq⌋ := h2
    have h4 := Int.le_floor.mp h3
    push_cast at h4 ⊢
    exact h4
  rw [Int.floor_lt]
  have h5 : ((i : ℚ) + 1) * rq ≤ ((m : ℚ) / rq) * rq :=
    mul_le_mul_of_nonneg_right (by push_cast at h1 ⊢; linarith) hrq.le
  rw [div_mul_cancel₀ _ hrq.ne'] at h5
  push_cast
  nlinarith

/-- **C4 (amended).** The resampler is the identity when the native
rate equals 16000; otherwise the output length is
`⌊inputLength / ratio⌋` and every output sample follows the claim's
interpolation formula with the interpolated value truncated toward
zero (the source's `int16` conversion); in particular a constant input
yields that same constant at every output position. -/
theorem downsample_spec (nativeSR : ℚ) (xs : List ℤ)
    (hpos : 0 < nativeSR) :
    (nativeSR = 16000 → downsample nativeSR xs = xs)
    ∧ (nativeSR ≠ 16000 →
        (downsample nativeSR xs).length
            = (⌊(xs.length : ℚ) / (nativeSR / 16000)⌋).toNat
        ∧ ∀ i : ℕ, i < (downsample nativeSR xs).length →
            (downsample nativeSR xs).getD i 0 = resampleAt nativeSR xs i)
    ∧ (∀ (c : ℤ) (m : ℕ), ∀ y ∈ downsample nativeSR (List.replicate m c),
        y = c) := by
  have hrq : (0 : ℚ) < nativeSR / 16000 := by positivity
  refine ⟨fun h => by simp [downsample, h], fun h => ?_, fun c m y hy => ?_⟩
  · constructor
    · simp only [downsample, if_neg h, List.length_map, List.length_range]
      rw [ratTrunc_of_nonneg (by positivity)]
    · intro i hi
      simp only [downsample, if_neg h, List.length_map,
        List.length_range] at hi ⊢
      have hsp : (0 : ℚ) ≤ (i : ℚ) * (nativeSR / 16000) := by positivity
      rw [List.getD_eq_getElem?_getD, List.getElem?_map,
        List.getElem?_range hi]
      simp only [Option.map_some', Option.getD_some]
      rw [downBody, resampleAt]
      simp only [ratTrunc_of_nonneg hsp]
  · rw [downsample] at hy
    split at hy
    · exact List.eq_of_mem_replicate hy
    · simp only [List.mem_map, List.mem_range] at hy
      obtain ⟨i, hi, hval⟩ := hy
      have hsp : (0 : ℚ) ≤ (i : ℚ) * (nativeSR / 16000) := by positivity
      rw [downBody] at hval
      simp only [ratTrunc_of_nonneg hsp, List.length_replicate] at hval
      set idx : ℤ := ⌊(i : ℚ) * (nativeSR / 16000)⌋ with hidx
      have hidx0 : 0 ≤ idx := Int.floor_nonneg.mpr hsp
      have hlt : idx < (m : ℤ) := by
        have := floor_srcPos_lt hrq (m := m) (i := i)
        rw [List.length_replicate] at hi
        exact this hi
      have hgetD : ∀ k : ℕ, k < m → (List.replicate m c).getD k 0 = c := by
        intro k hk
        rw [List.getD_eq_getElem?_getD, List.getElem?_replicate, if_pos hk]
        rfl
      by_cases hcase : idx + 1 < (m : ℤ)
      · rw [if_pos hcase] at hval
        have hk1 : idx.toNat < m := by omega
        rw [hgetD idx.toNat hk1, hgetD (idx.toNat + 1) (by omega)] at hval
        have hr : (c : ℚ) * (1 - ((i : ℚ) * (nativeSR / 16000) - (idx : ℚ)))
            + (c : ℚ) * ((i : ℚ) * (nativeSR / 16000) - (idx : ℚ))
            = (c : ℚ) := by ring
        rw [hr, ratTrunc_intCast] at hval
        exact hval.symm
      · rw [if_neg hcase, if_pos hlt] at hval
        have hk : idx.toNat < m := by omega
        rw [hgetD idx.toNat hk] at hval
        exact hval.symm

theorem downsample_eval_const :
    downsample 48000 (List.replicate 6 (7 : ℤ)) = [7, 7] := by
  have h1 : ratTrunc (((List.replicate 6 (7 : ℤ)).length : ℚ)
      / (48000 / 16000)) = 2 := by
    rw [ratTrunc, if_pos (by norm_num)]
    norm_num
  rw [downsample, if_neg (by norm_num), h1]
  have h2 : List.range ((2 : ℤ).toNat) = [0, 1] := by decide
  rw [h2]
  simp only [List.map_cons, List.map_nil]
  have b0 : downBody 48000 (List.replicate 6 (7 : ℤ)) 0 = 7 := by
    rw [downBody]
    norm_num [ratTrunc]
  have b1 : downBody 48000 (List.replicate 6 (7 : ℤ)) 1 = 7 := by
    rw [downBody]
    norm_num [ratTrunc]
  rw [b0, b1]

theorem downsample_spec_witness :
    (0 : ℚ) < 48000
    ∧ (∀ y ∈ downsample 48000 (List.replicate 6 (7 : ℤ)), y = 7)
    ∧ downsample 48000 (List.replicate 6 (7 : ℤ)) = [7, 7] :=
  ⟨by norm_num,
    (downsample_spec 48000 (List.replicate 6 7) (by norm_num)).2.2 7 6,
    downsample_eval_const⟩

theorem downsample_eval_ramp :
    downsample 24000 [0, 1, 2, 3] = [0, 1] := by
  have h1 : ratTrunc ((([0, 1, 2, 3] : List ℤ).length : ℚ)
      / (24000 / 16000)) = 2 := by
    rw [ratTrunc, if_pos (by norm_num)]
    norm_num
  rw [downsample, if_neg (by norm_num), h1]
  have h2 : List.range ((2 : ℤ).toNat) = [0, 1] := by decide
  rw [h2]
  simp only [List.map_cons, List.map_nil]
  have b0 : downBody 24000 [0, 1, 2, 3] 0 = 0 := by
    rw [downBody]
    norm_num [ratTrunc]
  have b1 : downBody 24000 [0, 1, 2, 3] 1 = 1 := by
    rw [downBody]
    norm_num [ratTrunc]
  rw [b0, b1]

/-- **C4 counterexample.** At native rate 24000 (ratio 3/2) on input
`[0, 1, 2, 3]`, output index 1 has `srcPos = 3/2`, `idx = 1`,
`frac = 1/2`; the claim's formula gives `1·(1/2) + 2·(1/2) = 3/2`, but
the produced sample is the truncated value `1`. -/
theorem downsample_not_exact_interpolation :
    downsample 24000 [0, 1, 2, 3] = [0, 1]
    ∧ (((downsample 24000 [0, 1, 2, 3]).getD 1 0 : ℚ))
        ≠ ((([0, 1, 2, 3] : List ℤ).getD 1 0 : ℚ)) * (1 - 1/2)
          + ((([0, 1, 2, 3] : List ℤ).getD 2 0 : ℚ)) * (1/2) := by
  refine ⟨downsample_eval_ramp, ?_⟩
  rw [downsample_eval_ramp]
  norm_num

/-- Little-endian byte pair of a 16-bit value. -/
def le16 (v : ℕ) : List ℕ := [v % 256, v / 256 % 256]

/-- Little-endian byte quadruple of a 32-bit value. -/
def le32 (v : ℕ) : List ℕ :=
  [v % 256, v / 256 % 256, v / 65536 % 256, v / 16777216 % 256]

/-- A signed 16-bit sample sequence as little-endian two's-complement
bytes (Go `binary.Write(f, binary.LittleEndian, samples)`). -/
def sampleBytes (xs : List ℤ) : List ℕ :=
  xs.flatMap (fun s => le16 ((s % 65536).toNat))

/-- The 14 `Write` calls of `writeWAV` (source lines 320-337), in
order: RIFF tag, group size, WAVE tag, fmt tag, fmt sub-block size 16,
PCM tag 1, channel count 1, sample rate 16000, byte rate 32000, block
align 2, bits per sample 16, data tag, data size, raw samples.  The
two size fields are uint32 values (`% 2^32`). -/
def wavChunks (xs : List ℤ) : List (List ℕ) :=
  [[82, 73, 70, 70],
   le32 ((36 + xs.length * 2 % 4294967296) % 4294967296),
   [87, 65, 86, 69],
   [102, 109, 116, 32],
   le32 16, le16 1, le16 1, le32 16000, le32 32000, le16 2, le16 16,
   [100, 97, 116, 97],
   le32 (xs.length * 2 % 4294967296),
   sampleBytes xs]

/-- The byte stream `writeWAV` produces when every write succeeds. -/
def wavBytes (xs : List ℤ) : List ℕ := (wavChunks xs).flatten

/-- The header fields of a parsed container, plus the samples decoded
from the bytes following the header. -/
structure WavHeader where
  riffSize : ℕ
  audioFormat : ℕ
  numChannels : ℕ
  sampleRate : ℕ
  byteRate : ℕ
  blockAlign : ℕ
  bitsPerSample : ℕ
  dataSize : ℕ
  samples : List ℤ
  deriving DecidableEq, Repr

/-- Reading a 16-bit little-endian value back as a signed sample. -/
def toInt16 (v : ℕ) : ℤ :=
  if v < 32768 then (v : ℤ) else (v : ℤ) - 65536

/-- Decode consecutive little-endian byte pairs as signed samples. -/
def parseSamples : List ℕ → List ℤ
  | b0 :: b1 :: rest => toInt16 (b0 + 256 * b1) :: parseSamples rest
  | _ => []

/-- Consume a four-byte tag with the expected values. -/
def tag4 (t0 t1 t2 t3 : ℕ) : List ℕ → Option (List ℕ)
  | b0 :: b1 :: b2 :: b3 :: rest =>
      if b0 = t0 ∧ b1 = t1 ∧ b2 = t2 ∧ b3 = t3 then some rest else none
  | _ => none

/-- Consume a 16-bit little-endian field. -/
def readU16 : List ℕ → Option (ℕ × List ℕ)
  | b0 :: b1 :: rest => some (b0 + 256 * b1, rest)
  | _ => none

/-- Consume a 32-bit little-endian field. -/
def readU32 : List ℕ → Option (ℕ × List ℕ)
  | b0 :: b1 :: b2 :: b3 :: rest =>
      some (b0 + 256 * b1 + 65536 * b2 + 16777216 * b3, rest)
  | _ => none

/-- Parse the canonical container layout: the four tags and the fmt
sub-block size 16 are required; the size and format fields are read
back as little-endian integers and everything after the 44-byte
header is decoded as samples. -/
def parseWav (bs : List ℕ) : Option WavHeader :=
  (tag4 82 73 70 70 bs).bind fun bs1 =>
  (readU32 bs1).bind fun p1 =>
  (tag4 87 65 86 69 p1.2).bind fun bs2 =>
  (tag4 102 109 116 32 bs2).bind fun bs3 =>
  (readU32 bs3).bind fun p2 =>
  if p2.1 = 16 then
    (readU16 p2.2).bind fun pa =>
    (readU16 pa.2).bind fun pc =>
    (readU32 pc.2).bind fun pr =>
    (readU32 pr.2).bind fun py =>
    (readU16 py.2).bind fun pg =>
    (readU16 pg.2).bind fun pp =>
    (tag4 100 97 116 97 pp.2).bind fun bs4 =>
    (readU32 bs4).bind fun pd =>
    some { riffSize := p1.1, audioFormat := pa.1, numChannels := pc.1,
           sampleRate := pr.1, byteRate := py.1, blockAlign := pg.1,
           bitsPerSample := pp.1, dataSize := pd.1,
           samples := parseSamples pd.2 }
  else none

theorem parseWav_wavLayout (fs ds : ℕ) (hfs : fs < 4294967296)
    (hds : ds < 4294967296) (tail : List ℕ) :
    parseWav ([82, 73, 70, 70] ++ le32 fs ++ [87, 65, 86, 69]
        ++ [102, 109, 116, 32] ++ le32 16 ++ le16 1 ++ le16 1
        ++ le32 16000 ++ le32 32000 ++ le16 2 ++ le16 16
        ++ [100, 97, 116, 97] ++ le32 ds ++ tail)
      = some { riffSize := fs, audioFormat := 1, numChannels := 1,
               sampleRate := 16000, byteRate := 32000, blockAlign := 2,
               bitsPerSample := 16, dataSize := ds,
               samples := parseSamples tail } := by
  have h1 : parseWav ([82, 73, 70, 70] ++ le32 fs ++ [87, 65, 86, 69]
        ++ [102, 109, 116, 32] ++ le32 16 ++ le16 1 ++ le16 1
        ++ le32 16000 ++ le32 32000 ++ le16 2 ++ le16 16
        ++ [100, 97, 116, 97] ++ le32 ds ++ tail)
      = some { riffSize := fs % 256 + 256 * (fs / 256 % 256)
                  + 65536 * (fs / 65536 % 256)
                  + 16777216 * (fs / 16777216 % 256),
               audioFormat := 1, numChannels := 1,
               sampleRate := 16000, byteRate := 32000, blockAlign := 2,
               bitsPerSample := 16,
               dataSize := ds % 256 + 256 * (ds / 256 % 256)
                  + 65536 * (ds / 65536 % 256)
                  + 16777216 * (ds / 16777216 % 256),
               samples := parseSamples tail } := rfl
  rw [h1]
  have h2 : fs % 256 + 256 * (fs / 256 % 256) + 65536 * (fs / 65536 % 256)
      + 16777216 * (fs / 16777216 % 256) = fs := by omega
  have h3 : ds % 256 + 256 * (ds / 256 % 256) + 65536 * (ds / 65536 % 256)
      + 16777216 * (ds / 16777216 % 256) = ds := by omega
  rw [h2, h3]

theorem parseSamples_sampleBytes (xs : List ℤ)
    (h : ∀ x ∈ xs, -32768 ≤ x ∧ x < 32768) :
    parseSamples (sampleBytes xs) = xs := by
  induction xs with
  | nil => rfl
  | cons a as ih =>
      have ha := h a (List.mem_cons_self a as)
      have hbytes : sampleBytes (a :: as)
          = ((a % 65536).toNat % 256)
            :: ((a % 65536).toNat / 256 % 256) :: sampleBytes as := by
        simp [sampleBytes, le16]
      rw [hbytes, parseSamples]
      have hv : (a % 65536).toNat % 256
          + 256 * ((a % 65536).toNat / 256 % 256) = (a % 65536).toNat := by
        omega
      rw [hv]
      have hval : toInt16 ((a % 65536).toNat) = a := by
        unfold toInt16
        split <;> omega
      rw [hval, ih (fun x hx => h x (List.mem_cons_of_mem a hx))]

/-- **C5 (amended).** A container built from `n` in-range 16-bit
samples parses back to exactly those `n` samples; the declared group
size equals `(36 + 2n) mod 2^32` and the data sub-block size equals
`(2n) mod 2^32` (that is, `36 + 2n` and `2n` whenever `2n < 2^32`);
the format sub-block declares PCM tag 1, 1 channel, rate 16000, byte
rate 32000, block alignment 2 and 16 bits per sample; all multi-byte
fields are little-endian. -/
theorem wav_roundtrip (xs : List ℤ)
    (h : ∀ x ∈ xs, -32768 ≤ x ∧ x < 32768) :
    parseWav (wavBytes xs)
      = some { riffSize := (36 + 2 * xs.length) % 4294967296,
               audioFormat := 1, numChannels := 1, sampleRate := 16000,
               byteRate := 32000, blockAlign := 2, bitsPerSample := 16,
               dataSize := (2 * xs.length) % 4294967296,
               samples := xs } := by
  have hshape : wavBytes xs
      = [82, 73, 70, 70] ++ le32 ((36 + xs.length * 2 % 4294967296)
            % 4294967296) ++ [87, 65, 86, 69]
        ++ [102, 109, 116, 32] ++ le32 16 ++ le16 1 ++ le16 1
        ++ le32 16000 ++ le32 32000 ++ le16 2 ++ le16 16
        ++ [100, 97, 116, 97] ++ le32 (xs.length * 2 % 4294967296)
        ++ sampleBytes xs := by
    simp [wavBytes, wavChunks]
  rw [hshape, parseWav_wavLayout _ _ (by omega) (by omega) _,
    parseSamples_sampleBytes xs h]
  have e1 : (36 + xs.length * 2 % 4294967296) % 4294967296
      = (36 + 2 * xs.length) % 4294967296 := by omega
  have e2 : xs.length * 2 % 4294967296 = 2 * xs.length % 4294967296 := by
    omega
  rw [e1, e2]

theorem wav_roundtrip_witness :
    (∀ x ∈ ([0, 1000, -1, 32767, -32768] : List ℤ),
        -32768 ≤ x ∧ x < 32768)
    ∧ parseWav (wavBytes [0, 1000, -1, 32767, -32768])
        = some { riffSize := (36 + 2 * 5) % 4294967296,
                 audioFormat := 1, numChannels := 1, sampleRate := 16000,
                 byteRate := 32000, blockAlign := 2, bitsPerSample := 16,
                 dataSize := (2 * 5) % 4294967296,
                 samples := [0, 1000, -1, 32767, -32768] } :=
  ⟨by decide, wav_roundtrip [0, 1000, -1, 32767, -32768] (by decide)⟩

/-- **C5 counterexample.** For `n = 2^31` samples the declared group
size wraps: the parsed-back field holds `36`, not `36 + 2n`. -/
theorem wav_declared_size_wraps :
    (parseWav (wavBytes (List.replicate 2147483648 (0 : ℤ)))).map
        WavHeader.riffSize = some 36
    ∧ (36 : ℕ)
        ≠ 36 + 2 * (List.replicate 2147483648 (0 : ℤ)).length := by
  constructor
  · have hshape : wavBytes (List.replicate 2147483648 (0 : ℤ))
        = [82, 73, 70, 70] ++ le32 36 ++ [87, 65, 86, 69]
          ++ [102, 109, 116, 32] ++ le32 16 ++ le16 1 ++ le16 1
          ++ le32 16000 ++ le32 32000 ++ le16 2 ++ le16 16
          ++ [100, 97, 116, 97] ++ le32 0
          ++ sampleBytes (List.replicate 2147483648 (0 : ℤ)) := by
      simp only [wavBytes, wavChunks, List.length_replicate]
      norm_num
    rw [hshape, parseWav_wavLayout 36 0 (by norm_num) (by norm_num)]
    rfl
  · simp only [List.length_replicate]
    omega

/-- The content the final-path file holds when the file create
succeeds and the i-th of the 14 writes succeeds iff `ok i`:
`writeWAV` discards every write error, so a failed write silently
contributes nothing. -/
def faultyContent (xs : List ℤ) (ok : ℕ → Bool) : List ℕ :=
  (List.zipWith (fun chunk i => if ok i then chunk else ([] : List ℕ))
    (wavChunks xs) (List.range (wavChunks xs).length)).flatten

/-- `writeWAV` (source lines 302-340) under a faulty filesystem: only
a failed `os.Create` is reported; once the file at the final path
exists, the function returns success no matter which writes failed,
leaving whatever bytes the successful writes produced at that path. -/
def writeWAVFaulty (xs : List ℤ) (createOk : Bool) (ok : ℕ → Bool) :
    Option (List ℕ) × Option AudioErr :=
  if createOk then (some (faultyContent xs ok), none)
  else (none, some AudioErr.ioError)

/-- **C9 failing run.** With the file created at the final path and
the last write (the sample data) failing, `writeWAV` reports success
and the final path holds a truncated 44-byte file, not the full
container: a partially written file is exposed under the final name
and no IOError is raised. -/
theorem writeWAV_truncated_file_reported_ok :
    (writeWAVFaulty [1] true (fun i => decide (i < 13))).2 = none
    ∧ (writeWAVFaulty [1] true (fun i => decide (i < 13))).1
        = some ((wavBytes [1]).take 44)
    ∧ (wavBytes [1]).take 44 ≠ wavBytes [1] := by decide

/-- Truncation toward zero of a real: Go's float64-to-int conversion. -/
noncomputable def realTrunc (x : ℝ) : ℤ :=
  if 0 ≤ x then ⌊x⌋ else ⌈x⌉

/-- Hz per DFT bin, `freqRes = sr / n` (source line 210). -/
noncomputable def freqRes (n : ℕ) (sr : ℝ) : ℝ := sr / n

/-- Highest evaluated DFT bin (source lines 219-222):
`maxBin = int(12000/freqRes) + 1`, then clamped down to `n/2`.  The
magnitude array `mags` has `maxBin + 1` entries, indices `0..maxBin`. -/
noncomputable def spectrumMaxBin (n : ℕ) (sr : ℝ) : ℤ :=
  if realTrunc (12000 / freqRes n sr) + 1 > ((n / 2 : ℕ) : ℤ)
  then ((n / 2 : ℕ) : ℤ)
  else realTrunc (12000 / freqRes n sr) + 1

/-- Logarithmic band edge `b` of the 32 bands between 80 Hz and 12 kHz
(source lines 236-237): `2^(logMin + (logMax - logMin) * b / 32)` with
`logMin = log2 80`, `logMax = log2 12000`. -/
noncomputable def bandEdge (b : ℕ) : ℝ :=
  (2 : ℝ) ^ (Real.logb 2 80
    + (Real.logb 2 12000 - Real.logb 2 80) * b / 32)

/-- `kLow = int(fLow/freqRes)` clamped to `≥ 1` (source lines
239-243). -/
noncomputable def bandKLow (n : ℕ) (sr : ℝ) (b : ℕ) : ℤ :=
  max (realTrunc (bandEdge b / freqRes n sr)) 1

/-- `kHigh = int(fHigh/freqRes)` clamped down to `maxBin`, then raised
to `kLow` when the range is empty (source lines 240-249). -/
noncomputable def bandKHigh (n : ℕ) (sr : ℝ) (b : ℕ) : ℤ :=
  max (min (realTrunc (bandEdge (b + 1) / freqRes n sr))
        (spectrumMaxBin n sr))
    (bandKLow n sr b)

/-- DFT magnitude of bin `k` (source lines 224-231):
`sqrt(re² + im²) / n` with `re = Σ buf[i]·cos(2πki/n)`,
`im = −Σ buf[i]·sin(2πki/n)`. -/
noncomputable def dftMag (buf : List ℤ) (k : ℕ) : ℝ :=
  Real.sqrt ((∑ i ∈ Finset.range buf.length,
      (buf.getD i 0 : ℝ)
        * Real.cos (2 * Real.pi * k * i / buf.length)) ^ 2
    + (-∑ i ∈ Finset.range buf.length,
      (buf.getD i 0 : ℝ)
        * Real.sin (2 * Real.pi * k * i / buf.length)) ^ 2)
    / buf.length

/-- One output band (source lines 251-271): average the bin magnitudes
over `kLow..kHigh`, divide by the reference level 800, apply the
logarithmic compression when positive, clamp to 1. -/
noncomputable def bandValue (buf : List ℤ) (sr : ℝ) (b : ℕ) : ℝ :=
  let ks := Finset.Icc (bandKLow buf.length sr b).toNat
    (bandKHigh buf.length sr b).toNat
  let avg := if 0 < ks.card
    then (∑ k ∈ ks, dftMag buf k) / (ks.card : ℝ)
    else ∑ k ∈ ks, dftMag buf k
  let normalized := avg / 800
  let compressed := if 0 < normalized
    then Real.logb 10 (normalized * 9 + 1) / Real.logb 10 10
    else normalized
  if 1 < compressed then 1 else compressed

open Classical in
/-- `GetSpectrum` (source lines 198-275): all zeros for an empty
scratch buffer or an unknown rate; otherwise 32 band values.  The
band-averaging loop indexes the magnitude array `mags` (size
`maxBin + 1`) at every `k` in `kLow..kHigh`; when an index falls
outside `0..maxBin` the Go code panics with index out of range, which
this model renders as `none`. -/
noncomputable def getSpectrum (buf : List ℤ) (sr : ℝ) :
    Option (List ℝ) :=
  if buf.length = 0 ∨ sr = 0 then some (List.replicate 32 0)
  else if 0 ≤ spectrumMaxBin buf.length sr
      ∧ ∀ b < 32, bandKHigh buf.length sr b ≤ spectrumMaxBin buf.length sr
  then some ((List.range 32).map (bandValue buf sr))
  else none

theorem maxBin_at_16000 : spectrumMaxBin 1024 16000 = 512 := by
  have h : (12000 : ℝ) / freqRes 1024 16000 = 768 := by
    rw [freqRes]
    norm_num
  rw [spectrumMaxBin, h, realTrunc, if_pos (by norm_num)]
  norm_num

theorem bandEdge_31_ge : (8016 : ℝ) ≤ bandEdge 31 := by
  have h2 : (0 : ℝ) < 2 := by norm_num
  have hb : bandEdge 31 = (2 : ℝ) ^ (Real.logb 2 80
      + (Real.logb 2 12000 - Real.logb 2 80) * ((31 : ℕ) : ℝ) / 32) := rfl
  have hpos : (0 : ℝ) < bandEdge 31 := by
    rw [hb]
    exact Real.rpow_pos_of_pos h2 _
  have hpow : bandEdge 31 ^ (32 : ℕ) = 80 * 12000 ^ (31 : ℕ) := by
    rw [hb, ← Real.rpow_natCast ((2 : ℝ) ^ (Real.logb 2 80
        + (Real.logb 2 12000 - Real.logb 2 80) * ((31 : ℕ) : ℝ) / 32)) 32,
      ← Real.rpow_mul h2.le]
    have he : (Real.logb 2 80
        + (Real.logb 2 12000 - Real.logb 2 80) * ((31 : ℕ) : ℝ) / 32)
          * ((32 : ℕ) : ℝ)
        = Real.logb 2 80 + ((31 : ℕ) : ℝ) * Real.logb 2 12000 := by
      push_cast
      ring
    have h12 : (2 : ℝ) ^ (((31 : ℕ) : ℝ) * Real.logb 2 12000)
        = ((2 : ℝ) ^ Real.logb 2 12000) ^ (31 : ℕ) := by
      rw [mul_comm, Real.rpow_mul h2.le, Real.rpow_natCast]
    rw [he, Real.rpow_add h2,
      Real.rpow_logb h2 (by norm_num) (by norm_num), h12,
      Real.rpow_logb h2 (by norm_num) (by norm_num)]
  have hnum : (8016 : ℝ) ^ (32 : ℕ) ≤ 80 * 12000 ^ (31 : ℕ) := by
    norm_num
  have hle : (8016 : ℝ) ^ (32 : ℕ) ≤ bandEdge 31 ^ (32 : ℕ) := by
    rw [hpow]
    exact hnum
  exact le_of_pow_le_pow_left₀ (by norm_num) hpos.le hle

theorem bandKLow_31_at_16000 : (513 : ℤ) ≤ bandKLow 1024 16000 31 := by
  have hfr : freqRes 1024 16000 = 125 / 8 := by
    rw [freqRes]
    norm_num
  have harg : (513 : ℝ) ≤ bandEdge 31 / freqRes 1024 16000 := by
    rw [hfr]
    calc (513 : ℝ) ≤ 8016 / (125 / 8) := by norm_num
    _ ≤ bandEdge 31 / (125 / 8) := by
        gcongr
        exact bandEdge_31_ge
  have h0 : (0 : ℝ) ≤ bandEdge 31 / freqRes 1024 16000 :=
    le_trans (by norm_num) harg
  rw [bandKLow, realTrunc, if_pos h0]
  refine le_trans (Int.le_floor.mpr ?_) (le_max_left _ _)
  push_cast
  exact harg

theorem bandKHigh_31_at_16000 :
    bandKHigh 1024 16000 31 = bandKLow 1024 16000 31 := by
  have h1 := maxBin_at_16000
  have h2 := bandKLow_31_at_16000
  rw [bandKHigh]
  apply max_eq_right
  refine le_trans (min_le_right _ _) ?_
  omega

/-- **C7 refuted (code bug).** For a full 1024-sample callback block at
native rate 16000 Hz, the magnitude array holds indices `0..512`
(`maxBin = 512`), but band 31's clamped range starts at
`kLow ≥ 513 > maxBin` and the empty-range fix raises `kHigh` to
`kLow`, so the averaging loop reads `mags[kLow]` out of range:
`GetSpectrum` panics instead of totally returning 32 values. -/
theorem spectrum_band_index_out_of_range :
    spectrumMaxBin 1024 16000 < bandKLow 1024 16000 31
    ∧ bandKHigh 1024 16000 31 = bandKLow 1024 16000 31 := by
  have h1 := maxBin_at_16000
  have h2 := bandKLow_31_at_16000
  exact ⟨by omega, bandKHigh_31_at_16000⟩

/-- **C6 refuted (code bug).** An all-zero non-empty block does not
always yield 32 zeros: with 1024 zero samples at native rate 16000 Hz
the band loop indexes past the end of the magnitude array (a Go index
out of range panic, `none` in this model) instead of returning. -/
theorem spectrum_zero_block_panics :
    getSpectrum (List.replicate 1024 (0 : ℤ)) 16000 = none := by
  have hlen : (List.replicate 1024 (0 : ℤ)).length = 1024 :=
    List.length_replicate 1024 0
  rw [getSpectrum]
  simp only [hlen]
  rw [if_neg (by norm_num), if_neg]
  intro hcond
  have h31 := hcond.2 31 (by norm_num)
  have h1 := maxBin_at_16000
  have h2 := bandKLow_31_at_16000
  rw [bandKHigh_31_at_16000] at h31
  omega

end MeetingTranscriber
